import Mathlib

/-!
Verification development for the log-analysis engine (`log_processor.py`).

Strings are embedded as `List Char` (`Str`).  Each regular-expression
extraction of the source is modelled by a Lean function implementing the
semantics of that concrete pattern (leftmost match, ordered alternation,
greedy quantifiers with backtracking, word boundaries).  The mutable
`LogProcessor` object is embedded as an explicit state record `PState`
threaded through `parse_logs`.
-/

namespace LogProc

/-- Strings of the source program, embedded as lists of characters. -/
abbrev Str := List Char

/-- Python whitespace (the chars of `str.strip` / the regex class matched by a
whitespace escape, restricted to ASCII). -/
def isSpaceCh (c : Char) : Bool :=
  c = ' ' || c = '\t' || c = '\n' || c = '\r' || c = '\x0b' || c = '\x0c'

/-- A word character of the regex engine (ASCII): letters, digits, underscore. -/
def isWordChar (c : Char) : Bool :=
  c.isAlpha || c.isDigit || c = '_'

/-- Lower-casing a string (Python `str.lower`, ASCII). -/
def lowerS (s : Str) : Str := s.map Char.toLower

/-- Python `pat in s`: `pat` occurs as a contiguous substring of `s`. -/
def containsSub (pat : Str) : Str → Bool
  | [] => pat.isPrefixOf ([] : Str)
  | c :: t => pat.isPrefixOf (c :: t) || containsSub pat t

/-- Length of the maximal run of characters satisfying `p` at the front. -/
def countLeading (p : Char → Bool) : Str → Nat
  | [] => 0
  | c :: t => if p c then countLeading p t + 1 else 0

/-- Is the character at index `i` (if any) a word character? -/
def isWordAt (line : Str) (i : Nat) : Bool :=
  isWordChar (line.getD i ' ')

/-- The regex word boundary at position `i` of `line` (between indices `i-1`
and `i`): exactly one side is a word character, out-of-range counts as
non-word. -/
def boundaryAt (line : Str) (i : Nat) : Bool :=
  (if i = 0 then false else isWordAt line (i - 1)) != isWordAt line i

/-- Case-insensitive literal match of `p` at the front of `l`. -/
def ciPrefixOf (p l : Str) : Bool :=
  (lowerS p).isPrefixOf (lowerS l)

/-! ## Pattern Extractor: the per-field regex models -/

/-- Shape check for the timestamp pattern: 4 digits, dash, 2 digits, dash,
2 digits, whitespace-or-T, 2 digits, colon, 2 digits, colon, 2 digits. -/
def tsCheck (t : Str) : Bool :=
  t.length = 19 &&
  (t.getD 0 ' ').isDigit && (t.getD 1 ' ').isDigit &&
  (t.getD 2 ' ').isDigit && (t.getD 3 ' ').isDigit &&
  t.getD 4 ' ' = '-' &&
  (t.getD 5 ' ').isDigit && (t.getD 6 ' ').isDigit &&
  t.getD 7 ' ' = '-' &&
  (t.getD 8 ' ').isDigit && (t.getD 9 ' ').isDigit &&
  (isSpaceCh (t.getD 10 'x') || t.getD 10 'x' = 'T') &&
  (t.getD 11 ' ').isDigit && (t.getD 12 ' ').isDigit &&
  t.getD 13 ' ' = ':' &&
  (t.getD 14 ' ').isDigit && (t.getD 15 ' ').isDigit &&
  t.getD 16 ' ' = ':' &&
  (t.getD 17 ' ').isDigit && (t.getD 18 ' ').isDigit

/-- Model of `_extract_timestamp`: first (leftmost) match of the timestamp pattern. -/
def extract_timestamp (line : Str) : Option Str :=
  (List.range (line.length + 1)).findSome? fun i =>
    let t := (line.drop i).take 19
    if tsCheck t then some t else none

/-- The seven level tokens, in the alternation order of the pattern. -/
def levelAlts : List Str :=
  [ ['D','E','B','U','G'], ['I','N','F','O'], ['W','A','R','N'],
    ['W','A','R','N','I','N','G'], ['E','R','R','O','R'],
    ['F','A','T','A','L'], ['C','R','I','T','I','C','A','L'] ]

/-- One attempt of the level pattern (word boundary, a level token matched
case-insensitively, word boundary) at position `i`; alternatives are tried in
pattern order, each with its trailing boundary (so `WARNING` is preferred to
`WARN` on a `WARNING` line because `WARN` fails its trailing boundary). -/
def levelMatchAt (line : Str) (i : Nat) : Option Str :=
  if boundaryAt line i then
    levelAlts.find? fun a =>
      ciPrefixOf a (line.drop i) && boundaryAt line (i + a.length)
  else none

/-- The default level string. -/
def strINFO : Str := ['I','N','F','O']

/-- Model of `_extract_log_level`: first match of the level pattern, upper-cased
(alternatives are upper-case, so the upper-cased matched text is the
alternative itself); absence defaults to INFO. -/
def extract_log_level (line : Str) : Str :=
  ((List.range (line.length + 1)).findSome? (levelMatchAt line)).getD strINFO

/-- The five HTTP method tokens of the API pattern. -/
def methodAlts : List Str :=
  [ ['G','E','T'], ['P','O','S','T'], ['P','U','T'],
    ['D','E','L','E','T','E'], ['P','A','T','C','H'] ]

/-- One attempt of the API pattern (method, one-or-more whitespace, a slash
and a maximal run of non-whitespace) at position `i`, case-sensitively. -/
def apiMatchAt (line : Str) (i : Nat) : Option (Str × Str) :=
  methodAlts.findSome? fun m =>
    if m.isPrefixOf (line.drop i) then
      let rest := line.drop (i + m.length)
      let w := countLeading isSpaceCh rest
      if w = 0 then none
      else
        match rest.drop w with
        | '/' :: after => some (m, '/' :: after.takeWhile (fun c => !isSpaceCh c))
        | _ => none
    else none

/-- Model of `_extract_api_call`: first match of the API pattern. -/
def extract_api_call (line : Str) : Option (Str × Str) :=
  (List.range (line.length + 1)).findSome? (apiMatchAt line)

/-- Numeric value of a digit character. -/
def digitVal (c : Char) : Nat := c.toNat - 48

/-- One attempt of the status-code pattern (word boundary, a 3-digit run whose
first digit is 1–5, word boundary) at position `i`. -/
def statusMatchAt (line : Str) (i : Nat) : Option Nat :=
  if boundaryAt line i then
    match line.drop i with
    | a :: b :: c :: _ =>
      if ('1' ≤ a && a ≤ '5') && b.isDigit && c.isDigit &&
         boundaryAt line (i + 3) then
        some (100 * digitVal a + 10 * digitVal b + digitVal c)
      else none
    | _ => none
  else none

/-- Model of `_extract_status_code`: first match of the status pattern, kept only when
the parsed integer lies in `[100, 599]`. -/
def extract_status_code (line : Str) : Option Nat :=
  match (List.range (line.length + 1)).findSome? (statusMatchAt line) with
  | some code => if 100 ≤ code ∧ code ≤ 599 then some code else none
  | none => none

/-- Capture class of the user_id/username patterns: anything but whitespace
and comma. -/
def capIdChar (c : Char) : Bool := !isSpaceCh c && c ≠ ','

/-- Capture class of the trace/request/session-id patterns: ASCII
alphanumerics and dash. -/
def capTokChar (c : Char) : Bool := c.isAlpha || c.isDigit || c = '-'

/-- Separator class of the identifier patterns: equals, colon, whitespace. -/
def sepChar (c : Char) : Bool := c = '=' || c = ':' || isSpaceCh c

/-- Match `kw`, an optional underscore or dash, then `id` (case-insensitively)
at position `i`; the optional character is tried greedily first.  Returns the
position right after the match. -/
def kwIdAt (kw : Str) (line : Str) (i : Nat) : Option Nat :=
  if ciPrefixOf kw (line.drop i) then
    let p := i + kw.length
    let idLit : Str := ['i','d']
    if (line.getD p ' ' = '_' || line.getD p ' ' = '-') &&
       ciPrefixOf idLit (line.drop (p + 1)) then
      some (p + 3)
    else if ciPrefixOf idLit (line.drop p) then some (p + 2)
    else none
  else none

/-- Match a one-or-more run of separator characters starting at `p` followed
by a one-or-more capture run; the separator run is greedy and backtracks
(shrinks from its maximum) until the next character is in the capture class.
Returns the captured maximal run. -/
def sepCapAt (line : Str) (p : Nat) (cap : Char → Bool) : Option Str :=
  let s := countLeading sepChar (line.drop p)
  if s = 0 then none
  else
    (List.range s).findSome? fun k =>
      let q := p + s - k
      match line.drop q with
      | c :: _ =>
        if cap c then some ((line.drop q).takeWhile cap) else none
      | [] => none

/-- Leftmost match of a `kw[_-]?id` + separators + capture pattern. -/
def kwIdSearch (kw : Str) (cap : Char → Bool) (line : Str) : Option Str :=
  (List.range (line.length + 1)).findSome? fun i =>
    match kwIdAt kw line i with
    | some p => sepCapAt line p cap
    | none => none

/-- Leftmost match of a literal + separators + capture pattern
(the username pattern). -/
def litSearch (lit : Str) (cap : Char → Bool) (line : Str) : Option Str :=
  (List.range (line.length + 1)).findSome? fun i =>
    if ciPrefixOf lit (line.drop i) then sepCapAt line (i + lit.length) cap
    else none

/-- Local-part class of the email pattern. -/
def emailLocal (c : Char) : Bool :=
  c.isAlpha || c.isDigit || c = '.' || c = '_' || c = '%' || c = '+' || c = '-'

/-- Domain class of the email pattern. -/
def emailDomain (c : Char) : Bool :=
  c.isAlpha || c.isDigit || c = '.' || c = '-'

/-- Top-level-domain class of the email pattern: letters, and the literal bar
that the character class of the source spells out. -/
def emailTld (c : Char) : Bool := c.isAlpha || c = '|'

/-- One attempt of the email pattern at position `i`: word boundary, maximal
local run, at-sign, a domain run (greedy, backtracking), a dot, a
two-or-more TLD run (greedy, backtracking), word boundary. -/
def emailMatchAt (line : Str) (i : Nat) : Option Str :=
  if boundaryAt line i then
    let L := countLeading emailLocal (line.drop i)
    if L = 0 then none
    else if line.getD (i + L) ' ' = '@' then
      let a := i + L + 1
      let D := countLeading emailDomain (line.drop a)
      if D = 0 then none
      else
        (List.range D).findSome? fun k =>
          let d := D - k
          if line.getD (a + d) ' ' = '.' then
            let t0 := a + d + 1
            let T := countLeading emailTld (line.drop t0)
            if T < 2 then none
            else
              (List.range (T - 1)).findSome? fun k2 =>
                let e := t0 + (T - k2)
                if boundaryAt line e then some ((line.drop i).take (e - i))
                else none
          else none
    else none
  else none

/-- Leftmost match of the email pattern (the whole matched text). -/
def emailSearch (line : Str) : Option Str :=
  (List.range (line.length + 1)).findSome? (emailMatchAt line)

/-- One attempt of the IP pattern at position `i`: word boundary, three
digit-runs of length 1–3 each followed by a dot, a final digit-run of length
1–3, word boundary. -/
def ipMatchAt (line : Str) (i : Nat) : Option Str :=
  if boundaryAt line i then
    let r1 := countLeading Char.isDigit (line.drop i)
    if (1 ≤ r1 && r1 ≤ 3) && line.getD (i + r1) ' ' = '.' then
      let p2 := i + r1 + 1
      let r2 := countLeading Char.isDigit (line.drop p2)
      if (1 ≤ r2 && r2 ≤ 3) && line.getD (p2 + r2) ' ' = '.' then
        let p3 := p2 + r2 + 1
        let r3 := countLeading Char.isDigit (line.drop p3)
        if (1 ≤ r3 && r3 ≤ 3) && line.getD (p3 + r3) ' ' = '.' then
          let p4 := p3 + r3 + 1
          let r4 := countLeading Char.isDigit (line.drop p4)
          if (1 ≤ r4 && r4 ≤ 3) && boundaryAt line (p4 + r4) then
            some ((line.drop i).take (p4 + r4 - i))
          else none
        else none
      else none
    else none
  else none

/-- Leftmost match of the IP pattern (the whole matched text). -/
def ipSearch (line : Str) : Option Str :=
  (List.range (line.length + 1)).findSome? (ipMatchAt line)

/-- The identifier kind names, as strings. -/
def kUserId : Str := ['u','s','e','r','_','i','d']
def kUsername : Str := ['u','s','e','r','n','a','m','e']
def kEmail : Str := ['e','m','a','i','l']
def kTraceId : Str := ['t','r','a','c','e','_','i','d']
def kRequestId : Str := ['r','e','q','u','e','s','t','_','i','d']
def kSessionId : Str := ['s','e','s','s','i','o','n','_','i','d']
def kIpAddress : Str := ['i','p','_','a','d','d','r','e','s','s']

/-- Model of `_extract_identifiers`: the seven kinds attempted independently, in the
fixed key order of the source; only matched kinds are present, in that order
(Python dict insertion order). -/
def extract_identifiers (line : Str) : List (Str × Str) :=
  (match kwIdSearch ['u','s','e','r'] capIdChar line with
   | some v => [(kUserId, v)] | none => []) ++
  (match litSearch ['u','s','e','r','n','a','m','e'] capIdChar line with
   | some v => [(kUsername, v)] | none => []) ++
  (match emailSearch line with
   | some v => [(kEmail, v)] | none => []) ++
  (match kwIdSearch ['t','r','a','c','e'] capTokChar line with
   | some v => [(kTraceId, v)] | none => []) ++
  (match kwIdSearch ['r','e','q','u','e','s','t'] capTokChar line with
   | some v => [(kRequestId, v)] | none => []) ++
  (match kwIdSearch ['s','e','s','s','i','o','n'] capTokChar line with
   | some v => [(kSessionId, v)] | none => []) ++
  (match ipSearch line with
   | some v => [(kIpAddress, v)] | none => [])

/-- The three alternatives of the error pattern. -/
def excAlts : List Str :=
  [ ['E','x','c','e','p','t','i','o','n'], ['E','r','r','o','r'],
    ['T','r','a','c','e','b','a','c','k'] ]

/-- The case-insensitive search for the pattern alternating the three error
tokens (no word boundaries in the source pattern: plain substring search). -/
def searchExcPat (line : Str) : Bool :=
  (List.range (line.length + 1)).any fun i =>
    excAlts.any fun a => ciPrefixOf a (line.drop i)

def strError : Str := ['e','r','r','o','r']
def strException : Str := ['e','x','c','e','p','t','i','o','n']

/-- Model of `_has_error`: the regex search, or the two lower-cased substring tests. -/
def has_error_check (line : Str) : Bool :=
  searchExcPat line || containsSub strError (lowerS line) ||
    containsSub strException (lowerS line)

def excSuffix : Str := ['E','x','c','e','p','t','i','o','n']
def errSuffix : Str := ['E','r','r','o','r']

/-- One attempt of a `\w+` + literal suffix alternative at position `i`: the
word-run is greedy and backtracks (the largest split point `j` with at least
one word character consumed and the suffix matching at `j` wins). -/
def suffMatchAt (line : Str) (i : Nat) (sfx : Str) : Option Str :=
  let m := countLeading isWordChar (line.drop i)
  (List.range m).findSome? fun k =>
    let j := i + m - k
    if sfx.isPrefixOf (line.drop j) then
      some ((line.drop i).take (j - i + sfx.length))
    else none

/-- Model of `_extract_exception`: leftmost match of the word-run + Exception /
word-run + Error alternation (case-sensitive), first alternative preferred at
each position. -/
def extract_exception (line : Str) : Option Str :=
  (List.range (line.length + 1)).findSome? fun i =>
    match suffMatchAt line i excSuffix with
    | some s => some s
    | none => suffMatchAt line i errSuffix

/-! ## Entry Store and parse_logs -/

/-- One parsed log entry (`log_entry` of the source). -/
structure LogEntry where
  line_number : Nat
  raw : Str
  timestamp : Option Str
  level : Str
  api : Option (Str × Str)
  status_code : Option Nat
  identifiers : List (Str × Str)
  has_error : Bool
  exception_type : Option Str
deriving DecidableEq, Repr

/-- A default entry, used only as the fallback of list lookups. -/
def dEntry : LogEntry :=
  { line_number := 0, raw := [], timestamp := none, level := strINFO,
    api := none, status_code := none, identifiers := [], has_error := false,
    exception_type := none }

/-- The mutable state of a `LogProcessor` instance. -/
structure PState where
  logs : List LogEntry
  user_sessions : List (Str × List LogEntry)
  errors : List LogEntry
  api_calls : List LogEntry
deriving DecidableEq, Repr

/-- The state of a freshly constructed `LogProcessor`. -/
def initState : PState :=
  { logs := [], user_sessions := [], errors := [], api_calls := [] }

/-- The `defaultdict(list)` append: extend the bucket of `k`, creating it at the
end of the key order on first touch. -/
def sessAppend (m : List (Str × List LogEntry)) (k : Str) (e : LogEntry) :
    List (Str × List LogEntry) :=
  match m with
  | [] => [(k, [e])]
  | (k0, v) :: rest =>
    if k0 = k then (k0, v ++ [e]) :: rest else (k0, v) :: sessAppend rest k e

/-- The identifier-index side effect of one entry: every `(kind, value)` pair
with a truthy (non-empty) value appends the entry to the bucket of the value. -/
def addEntrySessions (m : List (Str × List LogEntry)) (e : LogEntry) :
    List (Str × List LogEntry) :=
  e.identifiers.foldl
    (fun m kv => if kv.2.isEmpty then m else sessAppend m kv.2 e) m

/-- Splitting on newline, Python `content.split` with a newline separator:
empty pieces are kept. -/
def splitNl : Str → List Str
  | [] => [[]]
  | c :: t =>
    match splitNl t with
    | [] => [[]]
    | h :: r => if c = '\n' then [] :: h :: r else (c :: h) :: r

/-- Python `not line.strip()`: the line is blank after trimming whitespace. -/
def isBlank (line : Str) : Bool := line.all isSpaceCh

/-- Building one entry from a line and its 0-based index in the full line
list (every field extracted independently, as in the source). -/
def mkEntry (idx : Nat) (line : Str) : LogEntry :=
  { line_number := idx + 1
    raw := line
    timestamp := extract_timestamp line
    level := extract_log_level line
    api := extract_api_call line
    status_code := extract_status_code line
    identifiers := extract_identifiers line
    has_error := has_error_check line
    exception_type := extract_exception line }

/-- The body of the parse loop for one `(idx, line)` pair: skip blank lines,
otherwise build the entry, append it to the parsed list and to the derived
error / API-call / session collections. -/
def parseStep (acc : PState × List LogEntry) (il : Nat × Str) :
    PState × List LogEntry :=
  if isBlank il.2 then acc
  else
    let e := mkEntry il.1 il.2
    let st := acc.1
    ({ st with
        errors := if e.has_error then st.errors ++ [e] else st.errors
        api_calls := if e.api.isSome then st.api_calls ++ [e] else st.api_calls
        user_sessions := addEntrySessions st.user_sessions e },
     acc.2 ++ [e])

/-- Model of `parse_logs`: split, iterate with indices, then overwrite `self.logs`
with the freshly parsed list (the derived collections are only appended to,
never cleared — exactly as in the source). -/
def parse_logs (st : PState) (content : Str) : PState × List LogEntry :=
  let r := ((splitNl content).enum).foldl parseStep (st, [])
  ({ r.1 with logs := r.2 }, r.2)

/-! ## Journey Resolver -/

/-- The sort key of the journey sort: the timestamp, an absent one read as
the empty string (Python `x['timestamp'] or ''`). -/
def tsKey (e : LogEntry) : Str := e.timestamp.getD []

/-- Python string `≤` on the sort keys: lexicographic by code point. -/
def strLe : Str → Str → Bool
  | [], _ => true
  | _ :: _, [] => false
  | a :: as, b :: bs =>
    if a.toNat = b.toNat then strLe as bs else decide (a.toNat < b.toNat)

/-- Stable insertion of an entry into a key-sorted list: the entry goes in
front of the first element whose key is not smaller. -/
def ordInsert (e : LogEntry) : List LogEntry → List LogEntry
  | [] => [e]
  | x :: xs =>
    if strLe (tsKey e) (tsKey x) then e :: x :: xs else x :: ordInsert e xs

/-- The stable ascending sort by timestamp key (Python `list.sort(key=...)`
is a stable sort; any stable sort computes the same list). -/
def sortByTs : List LogEntry → List LogEntry
  | [] => []
  | x :: xs => ordInsert x (sortByTs xs)

/-- Does any (truthy) identifier value of the entry contain the query as a
case-insensitive substring?  Mirrors the inner loop with its early break. -/
def matchesQuery (q : Str) (e : LogEntry) : Bool :=
  e.identifiers.any fun kv =>
    !kv.2.isEmpty && containsSub (lowerS q) (lowerS kv.2)

/-- The collection pass of `get_user_journey`: every bucket of the index is
scanned, each matching entry appended once per bucket pass. -/
def collect_journey (st : PState) (q : Str) : List LogEntry :=
  st.user_sessions.flatMap fun kv => kv.2.filter (matchesQuery q)

/-- Model of `get_user_journey`: collect, then sort ascending by timestamp key. -/
def get_user_journey (st : PState) (q : Str) : List LogEntry :=
  sortByTs (collect_journey st q)

/-- The failure test of the journey partition: `has_error` or a truthy status
code at least 400. -/
def isFailed (e : LogEntry) : Bool :=
  e.has_error ||
    match e.status_code with
    | some c => c != 0 && decide (400 ≤ c)
    | none => false

/-- The result record of `find_error_sequence`. -/
structure ErrSeq where
  total_requests : Nat
  successful_requests : List LogEntry
  failed_requests : List LogEntry
  first_error : Option LogEntry
  last_successful_api : Option (Str × Str)
  error_apis : List (Str × Str)
deriving DecidableEq, Repr

/-- A default error-sequence record, used only as the fallback of lookups. -/
def dErrSeq : ErrSeq :=
  { total_requests := 0, successful_requests := [], failed_requests := [],
    first_error := none, last_successful_api := none, error_apis := [] }

/-- The body of the `find_error_sequence` loop for one journey entry. -/
def esStep (r : ErrSeq) (e : LogEntry) : ErrSeq :=
  if isFailed e then
    { r with
        failed_requests := r.failed_requests ++ [e]
        first_error :=
          match r.first_error with
          | some x => some x
          | none => some e
        error_apis :=
          match e.api with
          | some a => r.error_apis ++ [a]
          | none => r.error_apis }
  else
    { r with
        successful_requests := r.successful_requests ++ [e]
        last_successful_api :=
          match e.api with
          | some a => some a
          | none => r.last_successful_api }

/-- Model of `find_error_sequence`: run the journey, return the explicit no-data
signal when it is empty, otherwise partition it. -/
def find_error_sequence (st : PState) (q : Str) : Option ErrSeq :=
  let ul := get_user_journey st q
  if ul.isEmpty then none
  else
    some (ul.foldl esStep
      { total_requests := ul.length, successful_requests := [],
        failed_requests := [], first_error := none,
        last_successful_api := none, error_apis := [] })

/-! ## Aggregator -/

def strWARN : Str := ['W','A','R','N']
def strWARNING : Str := ['W','A','R','N','I','N','G']

/-- The statistics record of `get_statistics`. -/
structure Stats where
  total_logs : Nat
  errors : Nat
  warnings : Nat
  api_calls : Nat
  unique_users : Nat
  status_codes : List (Nat × Nat)
deriving DecidableEq, Repr

/-- The `defaultdict(int)` increment: bump the count of `k`, creating it at the
end of the key order on first touch. -/
def bumpCount (m : List (Nat × Nat)) (k : Nat) : List (Nat × Nat) :=
  match m with
  | [] => [(k, 1)]
  | (k0, v) :: rest =>
    if k0 = k then (k0, v + 1) :: rest else (k0, v) :: bumpCount rest k

/-- Model of `get_statistics`. -/
def get_statistics (st : PState) : Stats :=
  { total_logs := st.logs.length
    errors := (st.logs.filter fun e => e.has_error).length
    warnings := (st.logs.filter fun e => decide (e.level = strWARN)).length
    api_calls := st.api_calls.length
    unique_users := st.user_sessions.length
    status_codes :=
      st.logs.foldl
        (fun m e =>
          match e.status_code with
          | some c => if c ≠ 0 then bumpCount m c else m
          | none => m) [] }

/-- The per-endpoint record of `get_api_summary`. -/
structure ApiStat where
  total_calls : Nat
  successful : Nat
  failed : Nat
  errors : List Str
deriving DecidableEq, Repr

/-- The default per-endpoint record of the summary's `defaultdict`. -/
def dApiStat : ApiStat :=
  { total_calls := 0, successful := 0, failed := 0, errors := [] }

/-- The `"METHOD endpoint"` grouping key of an entry with an API field. -/
def apiKey (p : Str × Str) : Str := p.1 ++ ' ' :: p.2

/-- Update the bucket of `k` through `f`, creating it (from the default) at
the end of the key order on first touch. -/
def upsertApi (m : List (Str × ApiStat)) (k : Str) (f : ApiStat → ApiStat) :
    List (Str × ApiStat) :=
  match m with
  | [] => [(k, f dApiStat)]
  | (k0, v) :: rest =>
    if k0 = k then (k0, f v) :: rest else (k0, v) :: upsertApi rest k f

/-- Truthy `status_code` below 400 (the first branch of the summary). -/
def scLt400 (e : LogEntry) : Bool :=
  match e.status_code with
  | some c => c != 0 && decide (c < 400)
  | none => false

/-- The per-entry mutation of the summary bucket: total always bumped; then
the successful test, else the failed test (with the exception type recorded
when truthy). -/
def apiStatUpd (e : LogEntry) (s : ApiStat) : ApiStat :=
  let s := { s with total_calls := s.total_calls + 1 }
  if scLt400 e then { s with successful := s.successful + 1 }
  else if isFailed e then
    { s with
        failed := s.failed + 1
        errors :=
          match e.exception_type with
          | some t => if t.isEmpty then s.errors else s.errors ++ [t]
          | none => s.errors }
  else s

/-- The body of the `get_api_summary` loop for one API-call entry. -/
def summaryStep (m : List (Str × ApiStat)) (e : LogEntry) :
    List (Str × ApiStat) :=
  match e.api with
  | some p => upsertApi m (apiKey p) (apiStatUpd e)
  | none => m

/-- Model of `get_api_summary`: fold the API-call list into per-key records. -/
def get_api_summary (st : PState) : List (Str × ApiStat) :=
  st.api_calls.foldl summaryStep []

/-- Association-list lookup for the summary (explicit absence, no default
allocation). -/
def lookupApi (m : List (Str × ApiStat)) (k : Str) : Option ApiStat :=
  match m with
  | [] => none
  | (k0, v) :: rest => if k0 = k then some v else lookupApi rest k

/-- Association-list lookup for the identifier index (explicit empty result
for a missing key). -/
def lookupSess (m : List (Str × List LogEntry)) (k : Str) : List LogEntry :=
  match m with
  | [] => []
  | (k0, v) :: rest => if k0 = k then v else lookupSess rest k

/-! ## Specification-shaped companions used to characterise the folds -/

/-- The entries a line list parses to, with `n` the 0-based index of the first
line: blank lines are skipped (but still counted by the index). -/
def parsedFrom : Nat → List Str → List LogEntry
  | _, [] => []
  | n, l :: ls =>
    if isBlank l then parsedFrom (n + 1) ls
    else mkEntry n l :: parsedFrom (n + 1) ls

/-- The entry sequence a whole document parses to. -/
def parsedOf (content : Str) : List LogEntry :=
  parsedFrom 0 (splitNl content)

/-- Feeding a list of entries into the identifier index. -/
def sessAddAll (m : List (Str × List LogEntry)) (es : List LogEntry) :
    List (Str × List LogEntry) :=
  es.foldl addEntrySessions m

/-- The bucket contribution of one entry for the identifier value `v`: one
occurrence per `(kind, value)` pair whose truthy value equals `v`. -/
def bucketHits (v : Str) (e : LogEntry) : List LogEntry :=
  e.identifiers.filterMap fun kv =>
    if kv.2.isEmpty = true then none else if kv.2 = v then some e else none

/-- Does the entry group under the summary key `k` (it has an API field whose
rendered key is `k`)? -/
def relKey (k : Str) (e : LogEntry) : Bool :=
  match e.api with
  | some p => decide (apiKey p = k)
  | none => false

/-- Is the entry counted as failed by the summary (not counted successful,
and satisfying the failure test)? -/
def cntFailed (e : LogEntry) : Bool := !scLt400 e && isFailed e

/-- The exception type the summary records for one entry (only failed-counted
entries with a truthy exception type contribute). -/
def excRecorded (e : LogEntry) : Option Str :=
  if cntFailed e then
    match e.exception_type with
    | some t => if t.isEmpty then none else some t
    | none => none
  else none

/-- The literal `sfx` occurs in `line` starting at index `j`. -/
abbrev sfxOccurs (line : Str) (sfx : Str) (j : Nat) : Prop :=
  sfx.isPrefixOf (line.drop j) = true

/-! ## Concrete documents and values used as test inputs -/

/-- A document with one WARN line and one WARNING line. -/
def docWarn : Str := ("a WARN x\nb WARNING y").toList

/-- A one-line document with one API call, parsed twice in the re-parse
experiment. -/
def docDup : Str := ("GET /a user_id=u1").toList

/-- A one-line document whose user_id value is also an IP address. -/
def docIdx : Str := ("user_id=1.2.3.4").toList

/-- A one-line document: an API call with status 200 that also carries the
word error. -/
def docApi : Str := ("GET /a 200 error").toList

/-- A two-line document: a successful API call, then a later successful
request of the same user with no API field. -/
def docSeq : Str :=
  ("2024-01-01 10:00:00 GET /a user_id=u1\n2024-01-01 10:00:01 user_id=u1 ok").toList

/-- A three-line document whose middle line is blank. -/
def docBlank : Str := ("a\n\nb").toList

/-- A line in which the word Error occurs only bare (no word character in
front of it). -/
def lineBare : Str := ("Error: connection refused").toList

/-- The query used against `docSeq` and `docDup`. -/
def queryU1 : Str := ("u1").toList

/-- The shared identifier value of `docIdx`. -/
def valIp : Str := ("1.2.3.4").toList

/-- The summary key of the API call in `docApi`. -/
def keyGetA : Str := ("GET /a").toList

/-- The last element of `l` when there is one, else the default `d`
(the value of a repeatedly overwritten variable). -/
def lastWins (l : List (Str × Str)) (d : Option (Str × Str)) :
    Option (Str × Str) :=
  match l.getLast? with
  | some a => some a
  | none => d

/-- The default `d` when set, else the head of `l` (the value of a
write-once variable). -/
def firstWins (d : Option LogEntry) (l : List LogEntry) : Option LogEntry :=
  match d with
  | some x => some x
  | none => l.head?

/-! ## Generic lemmas about the string primitives -/

theorem containsSub_iff (p : Str) :
    ∀ l : Str, containsSub p l = true ↔
      ∃ i, i ≤ l.length ∧ p.isPrefixOf (l.drop i) = true := by
  intro l
  induction l with
  | nil =>
    constructor
    · intro h; exact ⟨0, Nat.le_refl 0, h⟩
    · rintro ⟨i, hi, hp⟩
      have : i = 0 := Nat.le_zero.mp hi
      subst this; exact hp
  | cons c t ih =>
    simp only [containsSub, Bool.or_eq_true]
    constructor
    · rintro (h | h)
      · exact ⟨0, Nat.zero_le _, by simpa using h⟩
      · obtain ⟨i, hi, hp⟩ := ih.mp h
        refine ⟨i + 1, by simpa using hi, by simpa using hp⟩
    · rintro ⟨i, hi, hp⟩
      cases i with
      | zero => exact Or.inl (by simpa using hp)
      | succ j =>
        exact Or.inr (ih.mpr ⟨j, by simpa using hi, by simpa using hp⟩)

theorem isPrefixOf_map (f : Char → Char) :
    ∀ p l : Str, p.isPrefixOf l = true → (p.map f).isPrefixOf (l.map f) = true := by
  intro p
  induction p with
  | nil => intro l _; simp [List.isPrefixOf]
  | cons a as ih =>
    intro l h
    cases l with
    | nil => simp [List.isPrefixOf] at h
    | cons b bs =>
      simp only [List.isPrefixOf, Bool.and_eq_true, beq_iff_eq] at h
      simp only [List.map_cons, List.isPrefixOf, Bool.and_eq_true, beq_iff_eq]
      exact ⟨by rw [h.1], ih bs h.2⟩

theorem isPrefixOf_length :
    ∀ p l : Str, p.isPrefixOf l = true → p.length ≤ l.length := by
  intro p
  induction p with
  | nil => intro l _; exact Nat.zero_le _
  | cons a as ih =>
    intro l h
    cases l with
    | nil => simp [List.isPrefixOf] at h
    | cons b bs =>
      simp only [List.isPrefixOf, Bool.and_eq_true] at h
      simpa using Nat.succ_le_succ (ih bs h.2)

theorem getD_drop {α : Type} :
    ∀ (i : Nat) (l : List α) (k : Nat) (d : α),
      (l.drop i).getD k d = l.getD (i + k) d := by
  intro i
  induction i with
  | zero => intro l k d; simp
  | succ j ih =>
    intro l k d
    cases l with
    | nil => simp
    | cons c t =>
      have : j + 1 + k = (j + k) + 1 := by omega
      rw [List.drop_succ_cons, ih t k d, this]
      rfl

theorem countLeading_le (p : Char → Bool) :
    ∀ l : Str, countLeading p l ≤ l.length := by
  intro l
  induction l with
  | nil => exact Nat.le_refl 0
  | cons c t ih =>
    by_cases h : p c = true
    · simpa [countLeading, h] using Nat.succ_le_succ ih
    · simp [countLeading, h]

theorem countLeading_getD (p : Char → Bool) :
    ∀ (l : Str) (k : Nat) (d : Char),
      k < countLeading p l → p (l.getD k d) = true := by
  intro l
  induction l with
  | nil => intro k d h; simp [countLeading] at h
  | cons c t ih =>
    intro k d h
    by_cases hc : p c = true
    · cases k with
      | zero => simpa using hc
      | succ j =>
        simp only [countLeading, hc, if_true] at h
        exact ih j d (by omega)
    · have hc0 : p c = false := by
        cases hpc : p c
        · rfl
        · exact absurd hpc hc
      have h0 : countLeading p (c :: t) = 0 := by simp [countLeading, hc0]
      omega

theorem lowerS_length (l : Str) : (lowerS l).length = l.length :=
  List.length_map l Char.toLower

theorem lowerS_drop (l : Str) (i : Nat) :
    lowerS (l.drop i) = (lowerS l).drop i :=
  List.map_drop Char.toLower l i

/-! ## Lemmas about the Python string order and the stable sort -/

theorem strLe_refl : ∀ s : Str, strLe s s = true := by
  intro s
  induction s with
  | nil => rfl
  | cons a as ih => simp [strLe, ih]

theorem strLe_total : ∀ a b : Str, strLe a b = true ∨ strLe b a = true := by
  intro a
  induction a with
  | nil => intro b; exact Or.inl rfl
  | cons x xs ih =>
    intro b
    cases b with
    | nil => exact Or.inr rfl
    | cons y ys =>
      by_cases h : x.toNat = y.toNat
      · rcases ih ys with h1 | h1
        · exact Or.inl (by simp [strLe, h, h1])
        · exact Or.inr (by simp [strLe, h.symm, h1])
      · rcases Nat.lt_or_ge x.toNat y.toNat with h1 | h1
        · exact Or.inl (by simp [strLe, h, h1])
        · have h2 : y.toNat < x.toNat := by omega
          exact Or.inr (by simp [strLe, Ne.symm h, h2])

theorem strLe_trans :
    ∀ a b c : Str, strLe a b = true → strLe b c = true → strLe a c = true := by
  intro a
  induction a with
  | nil => intro b c _ _; rfl
  | cons x xs ih =>
    intro b c hab hbc
    cases b with
    | nil => simp [strLe] at hab
    | cons y ys =>
      cases c with
      | nil => simp [strLe] at hbc
      | cons z zs =>
        by_cases hxy : x.toNat = y.toNat
        · by_cases hyz : y.toNat = z.toNat
          · simp only [strLe, hxy, if_true] at hab
            simp only [strLe, hyz, if_true] at hbc
            simp [strLe, hxy.trans hyz, ih ys zs hab hbc]
          · simp only [strLe, hyz, if_false] at hbc
            have h1 : y.toNat < z.toNat := by simpa using hbc
            have h2 : x.toNat < z.toNat := by omega
            simp [strLe, show x.toNat ≠ z.toNat by omega, h2]
        · simp only [strLe, hxy, if_false] at hab
          have h1 : x.toNat < y.toNat := by simpa using hab
          by_cases hyz : y.toNat = z.toNat
          · simp [strLe, show x.toNat ≠ z.toNat by omega, show x.toNat < z.toNat by omega]
          · simp only [strLe, hyz, if_false] at hbc
            have h2 : y.toNat < z.toNat := by simpa using hbc
            simp [strLe, show x.toNat ≠ z.toNat by omega, show x.toNat < z.toNat by omega]

theorem strLe_nil_right : ∀ a : Str, strLe a [] = true → a = [] := by
  intro a h
  cases a with
  | nil => rfl
  | cons x xs => simp [strLe] at h

theorem mem_ordInsert (e z : LogEntry) :
    ∀ l, z ∈ ordInsert e l ↔ z = e ∨ z ∈ l := by
  intro l
  induction l with
  | nil => simp [ordInsert]
  | cons x xs ih =>
    by_cases h : strLe (tsKey e) (tsKey x) = true
    · simp only [ordInsert, h, if_true]
      constructor
      · intro hm
        rcases List.mem_cons.mp hm with h1 | h1
        · exact Or.inl h1
        · exact Or.inr h1
      · intro hm
        rcases hm with h1 | h1
        · exact List.mem_cons.mpr (Or.inl h1)
        · exact List.mem_cons.mpr (Or.inr h1)
    · simp only [ordInsert, h, if_false]
      constructor
      · intro hm
        rcases List.mem_cons.mp hm with h1 | h1
        · exact Or.inr (List.mem_cons.mpr (Or.inl h1))
        · rcases ih.mp h1 with h2 | h2
          · exact Or.inl h2
          · exact Or.inr (List.mem_cons.mpr (Or.inr h2))
      · intro hm
        rcases hm with h1 | h1
        · exact List.mem_cons.mpr (Or.inr (ih.mpr (Or.inl h1)))
        · rcases List.mem_cons.mp h1 with h2 | h2
          · exact List.mem_cons.mpr (Or.inl h2)
          · exact List.mem_cons.mpr (Or.inr (ih.mpr (Or.inr h2)))

theorem pairwise_ordInsert (e : LogEntry) :
    ∀ l, List.Pairwise (fun a b => strLe (tsKey a) (tsKey b) = true) l →
      List.Pairwise (fun a b => strLe (tsKey a) (tsKey b) = true) (ordInsert e l) := by
  intro l
  induction l with
  | nil => intro _; simp [ordInsert]
  | cons x xs ih =>
    intro hp
    rcases List.pairwise_cons.mp hp with ⟨hx, hxs⟩
    by_cases h : strLe (tsKey e) (tsKey x) = true
    · simp only [ordInsert, h, if_true]
      refine List.pairwise_cons.mpr ⟨?_, hp⟩
      intro z hz
      rcases List.mem_cons.mp hz with h1 | h1
      · subst h1; exact h
      · exact strLe_trans _ _ _ h (hx z h1)
    · simp only [ordInsert, h, if_false]
      refine List.pairwise_cons.mpr ⟨?_, ih hxs⟩
      intro z hz
      rcases (mem_ordInsert e z xs).mp hz with h1 | h1
      · rw [h1]
        rcases strLe_total (tsKey e) (tsKey x) with h2 | h2
        · exact absurd h2 h
        · exact h2
      · exact hx z h1

theorem pairwise_sortByTs :
    ∀ l, List.Pairwise (fun a b => strLe (tsKey a) (tsKey b) = true) (sortByTs l) := by
  intro l
  induction l with
  | nil => simp [sortByTs]
  | cons x xs ih => exact pairwise_ordInsert x (sortByTs xs) ih

theorem ordInsert_cons (e x : LogEntry) (xs : List LogEntry) :
    ordInsert e (x :: xs) =
      if strLe (tsKey e) (tsKey x) = true then e :: x :: xs
      else x :: ordInsert e xs := rfl

theorem filter_ordInsert_key (e : LogEntry) (k : Str) (h : tsKey e = k) :
    ∀ l, (ordInsert e l).filter (fun x => decide (tsKey x = k)) =
      e :: l.filter (fun x => decide (tsKey x = k)) := by
  intro l
  induction l with
  | nil =>
    rw [show ordInsert e [] = [e] from rfl, List.filter_cons]
    simp [h]
  | cons x xs ih =>
    rw [ordInsert_cons]
    by_cases hle : strLe (tsKey e) (tsKey x) = true
    · rw [if_pos hle]
      simp [List.filter_cons, h]
    · rw [if_neg hle]
      have hxk : ¬ (tsKey x = k) := by
        intro hx
        exact hle (by rw [h, hx]; exact strLe_refl _)
      simp only [List.filter_cons, hxk, decide_eq_true_eq, if_false, ih]

theorem filter_ordInsert_ne (e : LogEntry) (k : Str) (h : ¬ (tsKey e = k)) :
    ∀ l, (ordInsert e l).filter (fun x => decide (tsKey x = k)) =
      l.filter (fun x => decide (tsKey x = k)) := by
  intro l
  induction l with
  | nil =>
    rw [show ordInsert e [] = [e] from rfl, List.filter_cons]
    simp [h]
  | cons x xs ih =>
    rw [ordInsert_cons]
    by_cases hle : strLe (tsKey e) (tsKey x) = true
    · rw [if_pos hle, List.filter_cons]
      simp [h]
    · rw [if_neg hle, List.filter_cons, List.filter_cons, ih]

theorem filter_sortByTs (k : Str) :
    ∀ l, (sortByTs l).filter (fun x => decide (tsKey x = k)) =
      l.filter (fun x => decide (tsKey x = k)) := by
  intro l
  induction l with
  | nil => simp [sortByTs]
  | cons x xs ih =>
    rw [show sortByTs (x :: xs) = ordInsert x (sortByTs xs) from rfl]
    by_cases hk : tsKey x = k
    · rw [filter_ordInsert_key x k hk (sortByTs xs), ih, List.filter_cons]
      simp [hk]
    · rw [filter_ordInsert_ne x k hk (sortByTs xs), ih, List.filter_cons]
      simp [hk]

theorem mem_sortByTs (z : LogEntry) : ∀ l, z ∈ sortByTs l ↔ z ∈ l := by
  intro l
  induction l with
  | nil => simp [sortByTs]
  | cons x xs ih =>
    rw [show sortByTs (x :: xs) = ordInsert x (sortByTs xs) from rfl]
    rw [mem_ordInsert, ih, List.mem_cons]

/-! ## Characterising the parse fold -/

theorem parsedFrom_cons_blank (n : Nat) (l : Str) (ls : List Str)
    (h : isBlank l = true) :
    parsedFrom n (l :: ls) = parsedFrom (n + 1) ls := by
  simp [parsedFrom, h]

theorem parsedFrom_cons_entry (n : Nat) (l : Str) (ls : List Str)
    (h : ¬ isBlank l = true) :
    parsedFrom n (l :: ls) = mkEntry n l :: parsedFrom (n + 1) ls := by
  simp [parsedFrom, h]

theorem append_if_filter (xs : List LogEntry) (e : LogEntry)
    (P : List LogEntry) (p : LogEntry → Bool) :
    (if p e = true then xs ++ [e] else xs) ++ P.filter p =
      xs ++ (e :: P).filter p := by
  by_cases h : p e = true
  · simp [h, List.filter_cons, List.append_assoc]
  · simp [h, List.filter_cons]

theorem foldl_parseStep (lines : List Str) :
    ∀ (n : Nat) (st : PState) (acc : List LogEntry),
      (List.enumFrom n lines).foldl parseStep (st, acc) =
        ({ logs := st.logs
           user_sessions := sessAddAll st.user_sessions (parsedFrom n lines)
           errors := st.errors ++ (parsedFrom n lines).filter (fun e => e.has_error)
           api_calls :=
             st.api_calls ++ (parsedFrom n lines).filter (fun e => e.api.isSome) },
         acc ++ parsedFrom n lines) := by
  induction lines with
  | nil =>
    intro n st acc
    simp [parsedFrom, sessAddAll]
  | cons l ls ih =>
    intro n st acc
    rw [show List.enumFrom n (l :: ls) = (n, l) :: List.enumFrom (n + 1) ls from rfl,
      List.foldl_cons]
    by_cases hb : isBlank l = true
    · rw [show parseStep (st, acc) (n, l) = (st, acc) from by simp [parseStep, hb],
        ih (n + 1) st acc, parsedFrom_cons_blank n l ls hb]
    · rw [show parseStep (st, acc) (n, l) =
          ({ st with
              errors :=
                if (mkEntry n l).has_error then st.errors ++ [mkEntry n l] else st.errors
              api_calls :=
                if (mkEntry n l).api.isSome then st.api_calls ++ [mkEntry n l]
                else st.api_calls
              user_sessions := addEntrySessions st.user_sessions (mkEntry n l) },
            acc ++ [mkEntry n l]) from by simp [parseStep, hb],
        ih (n + 1) _ _, parsedFrom_cons_entry n l ls hb]
      by_cases he : (mkEntry n l).has_error = true <;>
        by_cases ha : (mkEntry n l).api.isSome = true <;>
          simp [he, ha, List.filter_cons, List.append_assoc, sessAddAll,
            List.foldl_cons, Prod.mk.injEq, PState.mk.injEq]

theorem parse_logs_eq (st : PState) (content : Str) :
    parse_logs st content =
      ({ logs := parsedOf content
         user_sessions := sessAddAll st.user_sessions (parsedOf content)
         errors := st.errors ++ (parsedOf content).filter (fun e => e.has_error)
         api_calls :=
           st.api_calls ++ (parsedOf content).filter (fun e => e.api.isSome) },
       parsedOf content) := by
  show (let r := ((splitNl content).enum).foldl parseStep (st, []);
    ({ r.1 with logs := r.2 }, r.2)) = _
  rw [List.enum_eq_enumFrom, foldl_parseStep (splitNl content) 0 st []]
  simp [parsedOf]

/-! ## Line numbers of the parsed sequence -/

theorem mem_parsedFrom :
    ∀ (lines : List Str) (n : Nat) (e : LogEntry), e ∈ parsedFrom n lines →
      n + 1 ≤ e.line_number ∧ e.line_number ≤ n + lines.length ∧
      lines.getD (e.line_number - 1 - n) [] = e.raw ∧ isBlank e.raw = false := by
  intro lines
  induction lines with
  | nil => intro n e h; simp [parsedFrom] at h
  | cons l ls ih =>
    intro n e h
    by_cases hb : isBlank l = true
    · rw [parsedFrom_cons_blank n l ls hb] at h
      obtain ⟨h1, h2, h3, h4⟩ := ih (n + 1) e h
      refine ⟨by omega, by simp only [List.length_cons]; omega, ?_, h4⟩
      have hidx : e.line_number - 1 - n = (e.line_number - 1 - (n + 1)) + 1 := by
        omega
      rw [hidx]
      simpa using h3
    · rw [parsedFrom_cons_entry n l ls hb] at h
      rcases List.mem_cons.mp h with h1 | h1
      · subst h1
        refine ⟨Nat.le_refl _, ?_, ?_, ?_⟩
        · show n + 1 ≤ n + (l :: ls).length
          simp only [List.length_cons]
          omega
        · show (l :: ls).getD ((n + 1) - 1 - n) [] = l
          have h0 : (n + 1) - 1 - n = 0 := by omega
          rw [h0]
          rfl
        · show isBlank l = false
          cases hbl : isBlank l
          · rfl
          · exact absurd hbl hb
      · obtain ⟨h1, h2, h3, h4⟩ := ih (n + 1) e h1
        refine ⟨by omega, by simp only [List.length_cons]; omega, ?_, h4⟩
        have hidx : e.line_number - 1 - n = (e.line_number - 1 - (n + 1)) + 1 := by
          omega
        rw [hidx]
        simpa using h3

theorem parsedFrom_line_numbers_lt :
    ∀ (lines : List Str) (n : Nat),
      List.Pairwise (fun a b => a < b)
        ((parsedFrom n lines).map (fun e => e.line_number)) := by
  intro lines
  induction lines with
  | nil => intro n; simp [parsedFrom]
  | cons l ls ih =>
    intro n
    by_cases hb : isBlank l = true
    · rw [parsedFrom_cons_blank n l ls hb]
      exact ih (n + 1)
    · rw [parsedFrom_cons_entry n l ls hb]
      simp only [List.map_cons]
      refine List.pairwise_cons.mpr ⟨?_, ih (n + 1)⟩
      intro m hm
      obtain ⟨e, he, hme⟩ := List.mem_map.mp hm
      have := (mem_parsedFrom ls (n + 1) e he).1
      have hmk : (mkEntry n l).line_number = n + 1 := rfl
      omega

theorem parsedFrom_length :
    ∀ (lines : List Str) (n : Nat),
      (parsedFrom n lines).length =
        (lines.filter (fun l => !isBlank l)).length := by
  intro lines
  induction lines with
  | nil => intro n; simp [parsedFrom]
  | cons l ls ih =>
    intro n
    by_cases hb : isBlank l = true
    · rw [parsedFrom_cons_blank n l ls hb, List.filter_cons]
      simp [hb, ih (n + 1)]
    · rw [parsedFrom_cons_entry n l ls hb, List.filter_cons]
      simp [hb, ih (n + 1)]

/-! ## The identifier index built by the parse -/

theorem lookupSess_sessAppend (k v : Str) (e : LogEntry) :
    ∀ m, lookupSess (sessAppend m k e) v =
      if v = k then lookupSess m v ++ [e] else lookupSess m v := by
  intro m
  induction m with
  | nil =>
    by_cases hvk : v = k
    · simp [sessAppend, lookupSess, hvk]
    · have hkv : ¬ (k = v) := fun h => hvk h.symm
      simp [sessAppend, lookupSess, hvk, hkv]
  | cons kv rest ih =>
    obtain ⟨k0, v0⟩ := kv
    by_cases h0 : k0 = k
    · rw [show sessAppend ((k0, v0) :: rest) k e =
          (k0, v0 ++ [e]) :: rest from by simp [sessAppend, h0]]
      by_cases hv : k0 = v
      · simp [lookupSess, hv, show v = k from hv.symm.trans h0]
      · have hvk : ¬ (v = k) := fun h => hv (h0.trans h.symm)
        simp [lookupSess, hv, hvk]
    · rw [show sessAppend ((k0, v0) :: rest) k e =
          (k0, v0) :: sessAppend rest k e from by simp [sessAppend, h0]]
      by_cases hv : k0 = v
      · have hvk : ¬ (v = k) := fun h => h0 (hv.trans h)
        simp [lookupSess, hv, hvk]
      · simp [lookupSess, hv, ih]

theorem lookupSess_foldPairs (e : LogEntry) (v : Str) :
    ∀ (ps : List (Str × Str)) (m : List (Str × List LogEntry)),
      lookupSess
        (ps.foldl (fun m kv => if kv.2.isEmpty then m else sessAppend m kv.2 e) m) v =
      lookupSess m v ++ (ps.filterMap fun kv =>
        if kv.2.isEmpty = true then none
        else if kv.2 = v then some e else none) := by
  intro ps
  induction ps with
  | nil => intro m; simp
  | cons kv ps ih =>
    intro m
    by_cases hemp : kv.2.isEmpty = true
    · simp only [List.foldl_cons, List.filterMap_cons]
      simp only [hemp, if_true]
      exact ih m
    · have hif1 : (if kv.2.isEmpty then m else sessAppend m kv.2 e) =
          sessAppend m kv.2 e := if_neg hemp
      have hif2 : (if kv.2.isEmpty = true then (none : Option LogEntry)
          else if kv.2 = v then some e else none) =
          if kv.2 = v then some e else none := if_neg hemp
      simp only [List.foldl_cons, List.filterMap_cons]
      rw [hif1, hif2, ih (sessAppend m kv.2 e), lookupSess_sessAppend kv.2 v e m]
      by_cases hv : kv.2 = v
      · rw [if_pos (show v = kv.2 from hv.symm), if_pos hv]
        simp [List.append_assoc]
      · rw [if_neg (show ¬ v = kv.2 from fun h => hv h.symm), if_neg hv]

theorem lookupSess_addEntry (e : LogEntry) (v : Str)
    (m : List (Str × List LogEntry)) :
    lookupSess (addEntrySessions m e) v = lookupSess m v ++ bucketHits v e :=
  lookupSess_foldPairs e v e.identifiers m

theorem lookupSess_sessAddAll (v : Str) :
    ∀ (es : List LogEntry) (m),
      lookupSess (sessAddAll m es) v =
        lookupSess m v ++ es.flatMap (bucketHits v) := by
  intro es
  induction es with
  | nil => intro m; simp [sessAddAll]
  | cons e es ih =>
    intro m
    rw [show sessAddAll m (e :: es) = sessAddAll (addEntrySessions m e) es from rfl,
      ih (addEntrySessions m e), lookupSess_addEntry e v m]
    simp [List.append_assoc]

/-! ## Characterising the error-sequence fold -/

theorem getLast?_cons_isSome {α : Type} (b : α) :
    ∀ L : List α, ((b :: L).getLast?).isSome = true := by
  intro L
  induction L generalizing b with
  | nil => rfl
  | cons c L ih =>
    rw [List.getLast?_cons_cons]
    exact ih c

theorem lastWins_cons (a : Str × Str) (L : List (Str × Str))
    (d : Option (Str × Str)) :
    lastWins (a :: L) d = lastWins L (some a) := by
  cases L with
  | nil => rfl
  | cons c L =>
    obtain ⟨x, hx⟩ := Option.isSome_iff_exists.mp (getLast?_cons_isSome c L)
    show lastWins (a :: c :: L) d = lastWins (c :: L) (some a)
    rw [show lastWins (a :: c :: L) d =
        (match (a :: c :: L).getLast? with
         | some x => some x
         | none => d) from rfl,
      List.getLast?_cons_cons]
    rw [show lastWins (c :: L) (some a) =
        (match (c :: L).getLast? with
         | some x => some x
         | none => some a) from rfl]
    rw [hx]

theorem lastWins_none (L : List (Str × Str)) :
    lastWins L none = L.getLast? := by
  unfold lastWins
  cases L.getLast? <;> rfl

theorem foldl_esStep :
    ∀ (l : List LogEntry) (r : ErrSeq),
      l.foldl esStep r =
        { total_requests := r.total_requests
          successful_requests :=
            r.successful_requests ++ l.filter (fun e => !isFailed e)
          failed_requests := r.failed_requests ++ l.filter isFailed
          first_error := firstWins r.first_error (l.filter isFailed)
          last_successful_api :=
            lastWins (l.filterMap fun e =>
              if isFailed e = true then none else e.api) r.last_successful_api
          error_apis :=
            r.error_apis ++ l.filterMap fun e =>
              if isFailed e = true then e.api else none } := by
  intro l
  induction l with
  | nil =>
    intro r
    obtain ⟨t, s, f, fe, la, ea⟩ := r
    cases fe <;> simp [firstWins, lastWins]
  | cons e l ih =>
    intro r
    rw [List.foldl_cons, ih (esStep r e)]
    obtain ⟨t, s, f, fe, la, ea⟩ := r
    by_cases hf : isFailed e = true
    · cases ha : e.api with
      | none =>
        cases fe <;>
          simp [esStep, hf, ha, firstWins, List.filter_cons, List.filterMap_cons,
            List.append_assoc]
      | some a =>
        cases fe <;>
          simp [esStep, hf, ha, firstWins, List.filter_cons, List.filterMap_cons,
            List.append_assoc]
    · cases ha : e.api with
      | none =>
        cases fe <;>
          simp [esStep, hf, ha, firstWins, List.filter_cons, List.filterMap_cons,
            List.append_assoc]
      | some a =>
        cases fe <;>
          simp [esStep, hf, ha, firstWins, List.filter_cons, List.filterMap_cons,
            List.append_assoc, lastWins_cons]

/-! ## Characterising the API-summary fold -/

theorem lookupApi_upsert (k k' : Str) (f : ApiStat → ApiStat) :
    ∀ m, lookupApi (upsertApi m k f) k' =
      if k' = k then some (f ((lookupApi m k).getD dApiStat))
      else lookupApi m k' := by
  intro m
  induction m with
  | nil =>
    by_cases h : k' = k
    · simp [upsertApi, lookupApi, h]
    · have h2 : ¬ (k = k') := fun hh => h hh.symm
      simp [upsertApi, lookupApi, h, h2]
  | cons kv rest ih =>
    obtain ⟨k0, v0⟩ := kv
    by_cases h0 : k0 = k
    · rw [show upsertApi ((k0, v0) :: rest) k f = (k0, f v0) :: rest from by
        simp [upsertApi, h0]]
      by_cases h' : k0 = k'
      · have hk : k' = k := h'.symm.trans h0
        simp [lookupApi, h', hk, h0]
      · have hk : ¬ (k' = k) := fun hh => h' (h0.trans hh.symm)
        simp [lookupApi, h', hk]
    · rw [show upsertApi ((k0, v0) :: rest) k f =
          (k0, v0) :: upsertApi rest k f from by simp [upsertApi, h0]]
      by_cases h' : k0 = k'
      · have hk : ¬ (k' = k) := fun hh => h0 (h'.trans hh)
        simp [lookupApi, h', hk, h0]
      · simp [lookupApi, h', ih, h0]

theorem lookupApi_foldl_summary (k : Str) :
    ∀ (l : List LogEntry) (m : List (Str × ApiStat)),
      lookupApi (l.foldl summaryStep m) k =
        match lookupApi m k with
        | some s =>
          some ((l.filter (relKey k)).foldl (fun s e => apiStatUpd e s) s)
        | none =>
          if (l.filter (relKey k)).isEmpty then none
          else
            some ((l.filter (relKey k)).foldl (fun s e => apiStatUpd e s) dApiStat) := by
  intro l
  induction l with
  | nil =>
    intro m
    cases hm : lookupApi m k <;> simp [hm]
  | cons e l ih =>
    intro m
    rw [List.foldl_cons]
    cases hapi : e.api with
    | none =>
      have hstep : summaryStep m e = m := by simp [summaryStep, hapi]
      have hrel : relKey k e = false := by simp [relKey, hapi]
      rw [hstep, ih m, List.filter_cons, hrel]
      simp
    | some p =>
      have hstep : summaryStep m e = upsertApi m (apiKey p) (apiStatUpd e) := by
        simp [summaryStep, hapi]
      rw [hstep, ih (upsertApi m (apiKey p) (apiStatUpd e))]
      by_cases hk : apiKey p = k
      · have hrel : relKey k e = true := by simp [relKey, hapi, hk]
        rw [lookupApi_upsert (apiKey p) k (apiStatUpd e) m, if_pos hk.symm,
          List.filter_cons, hrel, hk]
        cases hm : lookupApi m k
        · simp [hm, List.foldl_cons]
        · simp [hm, List.foldl_cons]
      · have hrel : relKey k e = false := by
          simp only [relKey, hapi, decide_eq_true_eq]
          simp [hk]
        rw [lookupApi_upsert (apiKey p) k (apiStatUpd e) m,
          if_neg (fun hh => hk hh.symm), List.filter_cons, hrel]
        simp

theorem foldl_apiStatUpd :
    ∀ (rel : List LogEntry) (s : ApiStat),
      rel.foldl (fun s e => apiStatUpd e s) s =
        { total_calls := s.total_calls + rel.length
          successful := s.successful + (rel.filter scLt400).length
          failed := s.failed + (rel.filter cntFailed).length
          errors := s.errors ++ rel.filterMap excRecorded } := by
  intro rel
  induction rel with
  | nil => intro s; simp
  | cons e rel ih =>
    intro s
    obtain ⟨t0, s0, f0, e0⟩ := s
    rw [List.foldl_cons, ih (apiStatUpd e ⟨t0, s0, f0, e0⟩)]
    by_cases hS : scLt400 e = true
    · have hC : cntFailed e = false := by simp [cntFailed, hS]
      have hE : excRecorded e = none := by simp [excRecorded, hC]
      simp only [apiStatUpd, hS, if_true]
      simp [List.filter_cons, List.filterMap_cons, hS, hC, hE, ApiStat.mk.injEq]
      omega
    · by_cases hF : isFailed e = true
      · have hC : cntFailed e = true := by simp [cntFailed, hS, hF]
        simp only [apiStatUpd, hS, hF, if_false, if_true]
        cases hexc : e.exception_type with
        | none =>
          have hE : excRecorded e = none := by simp [excRecorded, hC, hexc]
          simp [List.filter_cons, List.filterMap_cons, hS, hC, hE,
            ApiStat.mk.injEq, hexc]
          omega
        | some tx =>
          by_cases hemp : tx.isEmpty = true
          · have hE : excRecorded e = none := by
              simp [excRecorded, hC, hexc, hemp]
            simp [List.filter_cons, List.filterMap_cons, hS, hC, hE,
              ApiStat.mk.injEq, hexc, hemp]
            omega
          · have hE : excRecorded e = some tx := by
              simp [excRecorded, hC, hexc, hemp]
            simp [List.filter_cons, List.filterMap_cons, hS, hC, hE,
              ApiStat.mk.injEq, hexc, hemp, List.append_assoc]
            omega
      · have hC : cntFailed e = false := by simp [cntFailed, hS, hF]
        have hE : excRecorded e = none := by simp [excRecorded, hC]
        simp only [apiStatUpd, hS, hF, if_false]
        simp [List.filter_cons, List.filterMap_cons, hS, hC, hE,
          ApiStat.mk.injEq]
        omega

/-! ## Bridging lemmas for the error pattern -/

theorem searchExcPat_iff (line : Str) :
    searchExcPat line = true ↔
      ∃ a ∈ excAlts, containsSub (lowerS a) (lowerS line) = true := by
  unfold searchExcPat
  rw [List.any_eq_true]
  constructor
  · rintro ⟨i, hi, ha⟩
    rw [List.any_eq_true] at ha
    obtain ⟨a, haMem, hp⟩ := ha
    refine ⟨a, haMem, ?_⟩
    rw [containsSub_iff]
    refine ⟨i, ?_, ?_⟩
    · rw [lowerS_length]
      exact Nat.lt_succ_iff.mp (List.mem_range.mp hi)
    · rw [← lowerS_drop]
      exact hp
  · rintro ⟨a, haMem, hc⟩
    rw [containsSub_iff] at hc
    obtain ⟨i, hi, hp⟩ := hc
    rw [lowerS_length] at hi
    refine ⟨i, List.mem_range.mpr (by omega), ?_⟩
    rw [List.any_eq_true]
    refine ⟨a, haMem, ?_⟩
    show (lowerS a).isPrefixOf (lowerS (line.drop i)) = true
    rw [lowerS_drop]
    exact hp

theorem suffMatchAt_eq_none (line : Str) (i : Nat) (sfx : Str) (hsfx : sfx ≠ [])
    (hbare : ∀ j, j < line.length → isWordAt line j = true →
      ¬ sfxOccurs line sfx (j + 1)) :
    suffMatchAt line i sfx = none := by
  unfold suffMatchAt
  apply List.findSome?_eq_none_iff.mpr
  intro k hk
  rw [List.mem_range] at hk
  by_cases hp : sfx.isPrefixOf
      (line.drop (i + countLeading isWordChar (line.drop i) - k)) = true
  · exfalso
    have hj1 : i + 1 ≤ i + countLeading isWordChar (line.drop i) - k := by omega
    have hjm : (i + countLeading isWordChar (line.drop i) - k) - 1 - i <
        countLeading isWordChar (line.drop i) := by omega
    have hw := countLeading_getD isWordChar (line.drop i)
      ((i + countLeading isWordChar (line.drop i) - k) - 1 - i) ' ' hjm
    rw [getD_drop] at hw
    have hidx : i + ((i + countLeading isWordChar (line.drop i) - k) - 1 - i) =
        (i + countLeading isWordChar (line.drop i) - k) - 1 := by omega
    rw [hidx] at hw
    have hlen := isPrefixOf_length sfx _ hp
    have hpos : 0 < sfx.length := List.length_pos.mpr hsfx
    rw [List.length_drop] at hlen
    have hjlt : i + countLeading isWordChar (line.drop i) - k < line.length := by
      omega
    have hb := hbare ((i + countLeading isWordChar (line.drop i) - k) - 1)
      (by omega) hw
    apply hb
    show sfx.isPrefixOf (line.drop
      (((i + countLeading isWordChar (line.drop i) - k) - 1) + 1)) = true
    have hback : ((i + countLeading isWordChar (line.drop i) - k) - 1) + 1 =
        i + countLeading isWordChar (line.drop i) - k := by omega
    rw [hback]
    exact hp
  · simp [hp]

/-! ## The claims -/

/-- C6: for every input line, the parsed has_error flag is true exactly when
the line contains, case-insensitively, one of the tokens Exception, Error or
Traceback, or the lower-cased line contains the substring error or the
substring exception. -/
theorem c6_has_error_iff (line : Str) :
    has_error_check line = true ↔
      (containsSub (lowerS ['E','x','c','e','p','t','i','o','n']) (lowerS line) = true ∨
       containsSub (lowerS ['E','r','r','o','r']) (lowerS line) = true ∨
       containsSub (lowerS ['T','r','a','c','e','b','a','c','k']) (lowerS line) = true ∨
       containsSub strError (lowerS line) = true ∨
       containsSub strException (lowerS line) = true) := by
  unfold has_error_check
  simp only [Bool.or_eq_true, searchExcPat_iff, excAlts]
  constructor
  · rintro ((h | h) | h)
    · obtain ⟨a, ha, hc⟩ := h
      simp only [List.mem_cons, List.mem_singleton, List.not_mem_nil, or_false] at ha
      rcases ha with h1 | h1 | h1 <;> subst h1
      · exact Or.inl hc
      · exact Or.inr (Or.inl hc)
      · exact Or.inr (Or.inr (Or.inl hc))
    · exact Or.inr (Or.inr (Or.inr (Or.inl h)))
    · exact Or.inr (Or.inr (Or.inr (Or.inr h)))
  · rintro (h | h | h | h | h)
    · exact Or.inl (Or.inl ⟨_, by simp, h⟩)
    · exact Or.inl (Or.inl ⟨_, by simp, h⟩)
    · exact Or.inl (Or.inl ⟨_, by simp, h⟩)
    · exact Or.inl (Or.inr h)
    · exact Or.inr h

/-- C9: the extracted status code, when present, always lies in [100, 599];
no out-of-range three-digit run ever populates it, and an out-of-range value
yields absence rather than an error. -/
theorem c9_status_code_range (line : Str) (c : Nat)
    (h : extract_status_code line = some c) : 100 ≤ c ∧ c ≤ 599 := by
  unfold extract_status_code at h
  cases hf : (List.range (line.length + 1)).findSome? (statusMatchAt line) with
  | none =>
    rw [hf] at h
    exact absurd h (by simp)
  | some code =>
    rw [hf] at h
    have h2 : (if 100 ≤ code ∧ code ≤ 599 then some code else none) = some c := h
    by_cases hr : 100 ≤ code ∧ code ≤ 599
    · rw [if_pos hr] at h2
      have hcc : code = c := Option.some.inj h2
      exact hcc ▸ hr
    · rw [if_neg hr] at h2
      exact absurd h2 (by simp)

/-- C9 witness: a concrete line carrying the status code 500. -/
theorem c9_status_code_range_witness : 100 ≤ 500 ∧ 500 ≤ 599 :=
  c9_status_code_range (['x', ' ', '5', '0', '0']) 500 (by decide)

/-- C10: on a line where the suffixes Error / Exception occur only bare
(never with a word character immediately in front of them, case-sensitively),
and at least one of them does occur, the parsed entry has has_error true
while exception_type is absent. -/
theorem c10_bare_error_no_exception_type (line : Str)
    (hocc : ∃ j ∈ List.range line.length,
      sfxOccurs line errSuffix j ∨ sfxOccurs line excSuffix j)
    (hbare : ∀ j ∈ List.range line.length, isWordAt line j = true →
      ¬ sfxOccurs line errSuffix (j + 1) ∧ ¬ sfxOccurs line excSuffix (j + 1)) :
    has_error_check line = true ∧ extract_exception line = none := by
  constructor
  · obtain ⟨j, hj, hor⟩ := hocc
    have hcont : containsSub strError (lowerS line) = true ∨
        containsSub strException (lowerS line) = true := by
      rcases hor with h | h
      · left
        rw [containsSub_iff]
        refine ⟨j, by rw [lowerS_length]; exact Nat.le_of_lt (List.mem_range.mp hj), ?_⟩
        rw [← lowerS_drop]
        have := isPrefixOf_map Char.toLower errSuffix (line.drop j) h
        exact this
      · right
        rw [containsSub_iff]
        refine ⟨j, by rw [lowerS_length]; exact Nat.le_of_lt (List.mem_range.mp hj), ?_⟩
        rw [← lowerS_drop]
        have := isPrefixOf_map Char.toLower excSuffix (line.drop j) h
        exact this
    unfold has_error_check
    rcases hcont with h | h <;> simp [h]
  · unfold extract_exception
    apply List.findSome?_eq_none_iff.mpr
    intro i _
    have hexc : suffMatchAt line i excSuffix = none := by
      apply suffMatchAt_eq_none line i excSuffix (by decide)
      intro j hj hw
      exact (hbare j (List.mem_range.mpr hj) hw).2
    have herr : suffMatchAt line i errSuffix = none := by
      apply suffMatchAt_eq_none line i errSuffix (by decide)
      intro j hj hw
      exact (hbare j (List.mem_range.mpr hj) hw).1
    simp [hexc, herr]

/-- C10 witness: the line Error: connection refused has has_error true and no
exception_type. -/
theorem c10_bare_error_witness :
    has_error_check lineBare = true ∧ extract_exception lineBare = none :=
  c10_bare_error_no_exception_type lineBare (by decide) (by decide)

/-- C2 counterexample: on the document a, blank, b the line_number values are
[1, 3], not the contiguous [1, 2] the claim requires. -/
theorem c2_counterexample_line_numbers :
    (parse_logs initState docBlank).2.map (fun e => e.line_number) = [1, 3] ∧
    ¬ ((parse_logs initState docBlank).2.map (fun e => e.line_number) =
        List.range' 1 (parse_logs initState docBlank).2.length) := by
  decide

/-- C2 (amended): line_number is the 1-based position of the entry's line
among ALL lines of the document (a blank line produces no entry but still
consumes a number), so the values are strictly ascending, each entry's
line_number points back to its own raw line, and the entry count equals the
number of non-blank lines. -/
theorem c2_line_numbers (st : PState) (content : Str) :
    List.Pairwise (fun a b => a < b)
      (((parse_logs st content).2).map (fun e => e.line_number)) ∧
    (∀ e ∈ (parse_logs st content).2,
      1 ≤ e.line_number ∧ e.line_number ≤ (splitNl content).length ∧
      (splitNl content).getD (e.line_number - 1) [] = e.raw ∧
      isBlank e.raw = false) ∧
    (parse_logs st content).2.length =
      ((splitNl content).filter (fun l => !isBlank l)).length := by
  have h2 : (parse_logs st content).2 = parsedOf content := by
    rw [parse_logs_eq]
  rw [h2]
  refine ⟨parsedFrom_line_numbers_lt _ 0, ?_, parsedFrom_length _ 0⟩
  intro e he
  obtain ⟨h1, hb2, h3, h4⟩ := mem_parsedFrom (splitNl content) 0 e he
  refine ⟨by omega, by simpa using hb2, ?_, h4⟩
  simpa using h3

/-- C2 witness: the first entry of the counterexample document evaluated
through the amended statement. -/
theorem c2_line_numbers_witness :
    1 ≤ ((parse_logs initState docBlank).2.getD 0 dEntry).line_number ∧
    ((parse_logs initState docBlank).2.getD 0 dEntry).line_number ≤
      (splitNl docBlank).length ∧
    (splitNl docBlank).getD
      (((parse_logs initState docBlank).2.getD 0 dEntry).line_number - 1) [] =
      ((parse_logs initState docBlank).2.getD 0 dEntry).raw ∧
    isBlank ((parse_logs initState docBlank).2.getD 0 dEntry).raw = false :=
  (c2_line_numbers initState docBlank).2.1
    ((parse_logs initState docBlank).2.getD 0 dEntry) (by decide)

/-- C4 counterexample: on the document user_id=1.2.3.4 the value 1.2.3.4 is
carried by two identifier kinds of the same entry, and the bucket for that
value holds the entry twice, not once. -/
theorem c4_counterexample_shared_value :
    (lookupSess ((parse_logs initState docIdx).1.user_sessions) valIp).length = 2 ∧
    ((lookupSess ((parse_logs initState docIdx).1.user_sessions) valIp).getD 0 dEntry
        ∈ (parse_logs initState docIdx).2) ∧
    (lookupSess ((parse_logs initState docIdx).1.user_sessions) valIp).getD 0 dEntry =
      (lookupSess ((parse_logs initState docIdx).1.user_sessions) valIp).getD 1 dEntry ∧
    ¬ (List.count
        ((lookupSess ((parse_logs initState docIdx).1.user_sessions) valIp).getD 0 dEntry)
        (lookupSess ((parse_logs initState docIdx).1.user_sessions) valIp) = 1) := by
  decide

/-- C4 (amended): for a parse from a fresh state, the bucket of a value `v`
lists, in original entry order, one occurrence of each parsed entry per
(kind, value) pair whose truthy value is `v` — so an entry carrying the same
value under two kinds appears once per kind. -/
theorem c4_index_buckets (content : Str) (v : Str) :
    lookupSess ((parse_logs initState content).1.user_sessions) v =
      (parsedOf content).flatMap (bucketHits v) := by
  rw [parse_logs_eq]
  show lookupSess (sessAddAll initState.user_sessions (parsedOf content)) v = _
  rw [lookupSess_sessAddAll v (parsedOf content) initState.user_sessions]
  rfl

/-- C1: re-parsing the same document on the same engine state returns the
identical entry sequence, but the derived state is NOT rebuilt from scratch:
the API-call list (and hence the api_calls statistic) doubles, because
parse_logs appends to errors, api_calls and user_sessions without clearing
them, while total_logs stays the same. -/
theorem c1_reparse_state_carryover :
    (parse_logs (parse_logs initState docDup).1 docDup).2 =
      (parse_logs initState docDup).2 ∧
    (get_statistics (parse_logs initState docDup).1).api_calls = 1 ∧
    (get_statistics (parse_logs (parse_logs initState docDup).1 docDup).1).api_calls = 2 ∧
    (get_statistics (parse_logs (parse_logs initState docDup).1 docDup).1).total_logs =
      (get_statistics (parse_logs initState docDup).1).total_logs ∧
    (lookupSess ((parse_logs (parse_logs initState docDup).1 docDup).1.user_sessions)
      queryU1).length = 2 ∧
    (lookupSess ((parse_logs initState docDup).1.user_sessions) queryU1).length = 1 := by
  decide

/-- C3 counterexample: on the document GET /a 200 error, the single API call
has has_error true, yet the summary counts it as successful and its failed
count is 0 — the successful branch pre-empts the failed test. -/
theorem c3_counterexample_api_summary :
    ((lookupApi (get_api_summary (parse_logs initState docApi).1) keyGetA).getD
        dApiStat).successful = 1 ∧
    ((lookupApi (get_api_summary (parse_logs initState docApi).1) keyGetA).getD
        dApiStat).failed = 0 ∧
    (parse_logs initState docApi).1.api_calls.all (fun e => e.has_error) = true ∧
    (parse_logs initState docApi).1.api_calls.length = 1 := by
  decide

/-- C3 (amended): per key, total_calls counts every API-call entry with that
key; an entry with a truthy status_code below 400 is counted successful, and
ONLY otherwise an entry with has_error or status_code at least 400 is counted
failed (the two branches are mutually exclusive, checked in that order); the
truthy exception types of the failed-counted entries are recorded in order;
a key is present exactly when some API call carries it. -/
theorem c3_api_summary (st : PState) (k : Str) :
    lookupApi (get_api_summary st) k =
      (if (st.api_calls.filter (relKey k)).isEmpty then none
       else some
        { total_calls := (st.api_calls.filter (relKey k)).length
          successful := ((st.api_calls.filter (relKey k)).filter scLt400).length
          failed := ((st.api_calls.filter (relKey k)).filter cntFailed).length
          errors := (st.api_calls.filter (relKey k)).filterMap excRecorded }) := by
  show lookupApi (st.api_calls.foldl summaryStep []) k = _
  rw [lookupApi_foldl_summary k st.api_calls []]
  show (if (st.api_calls.filter (relKey k)).isEmpty then none
    else some ((st.api_calls.filter (relKey k)).foldl
      (fun s e => apiStatUpd e s) dApiStat)) = _
  by_cases h : (st.api_calls.filter (relKey k)).isEmpty = true
  · rw [if_pos h, if_pos h]
  · rw [if_neg h, if_neg h, foldl_apiStatUpd]
    show some _ = some _
    rw [show dApiStat =
      { total_calls := 0, successful := 0, failed := 0, errors := [] } from rfl]
    simp

/-- C5 counterexample: on a journey of two successful requests whose later
entry has no API field, last_successful_api is the API of the EARLIER
successful entry, not the api field (absent) of the most recent successful
entry. -/
theorem c5_counterexample_last_successful_api :
    (get_user_journey (parse_logs initState docSeq).1 queryU1).map (fun e => e.api) =
      [some (['G','E','T'], ['/','a']), none] ∧
    (get_user_journey (parse_logs initState docSeq).1 queryU1).filter isFailed = [] ∧
    ((find_error_sequence (parse_logs initState docSeq).1 queryU1).getD
        dErrSeq).last_successful_api = some (['G','E','T'], ['/','a']) ∧
    ¬ (((find_error_sequence (parse_logs initState docSeq).1 queryU1).getD
        dErrSeq).last_successful_api =
      ((get_user_journey (parse_logs initState docSeq).1 queryU1).getLastD dEntry).api) := by
  decide

/-- C5 (amended): find_error_sequence returns the no-data signal on an empty
journey, and otherwise: total_requests is the journey length, the failed
partition holds exactly the entries with has_error or a truthy status code of
at least 400 (the rest are successful), first_error is the first failed entry
in sorted order, error_apis lists the API fields of failed entries in order,
and last_successful_api is the API field of the most recent successful entry
THAT HAS an API field (not necessarily the most recent successful entry). -/
theorem c5_error_sequence (st : PState) (q : Str) :
    find_error_sequence st q =
      (if (get_user_journey st q).isEmpty then none
       else some
        { total_requests := (get_user_journey st q).length
          successful_requests :=
            (get_user_journey st q).filter (fun e => !isFailed e)
          failed_requests := (get_user_journey st q).filter isFailed
          first_error := ((get_user_journey st q).filter isFailed).head?
          last_successful_api := ((get_user_journey st q).filterMap fun e =>
            if isFailed e = true then none else e.api).getLast?
          error_apis := (get_user_journey st q).filterMap fun e =>
            if isFailed e = true then e.api else none }) := by
  unfold find_error_sequence
  by_cases h : (get_user_journey st q).isEmpty = true
  · rw [if_pos h, if_pos h]
  · rw [if_neg h, if_neg h, foldl_esStep]
    simp [firstWins, lastWins_none]

/-- C7: the warnings statistic counts exactly the entries whose level is WARN
(an entry with level WARNING is never counted), and on a document with one
WARN line and one WARNING line it reports 1. -/
theorem c7_warn_statistics :
    (∀ st : PState, (get_statistics st).warnings =
      (st.logs.filter fun e => decide (e.level = strWARN)).length) ∧
    (parse_logs initState docWarn).1.logs.map (fun e => e.level) =
      [strWARN, strWARNING] ∧
    (get_statistics (parse_logs initState docWarn).1).warnings = 1 := by
  refine ⟨fun st => rfl, by decide, by decide⟩

/-- C8: the journey of a query is sorted ascending by timestamp (an absent
timestamp read as the empty string, which sorts before every non-empty one),
the sort is stable (entries of equal key keep the collection order), and an
entry is in the journey exactly when it sits in some index bucket and one of
its truthy identifier values contains the query as a case-insensitive
substring. -/
theorem c8_journey_sorted_stable (st : PState) (q : Str) :
    List.Pairwise (fun a b => strLe (tsKey a) (tsKey b) = true)
      (get_user_journey st q) ∧
    (∀ k, (get_user_journey st q).filter (fun e => decide (tsKey e = k)) =
      (collect_journey st q).filter (fun e => decide (tsKey e = k))) ∧
    (∀ e, e ∈ get_user_journey st q ↔
      ((∃ kv ∈ st.user_sessions, e ∈ kv.2) ∧
        ∃ p ∈ e.identifiers, ¬ p.2.isEmpty = true ∧
          containsSub (lowerS q) (lowerS p.2) = true)) ∧
    List.Pairwise (fun a b => tsKey b = [] → tsKey a = [])
      (get_user_journey st q) := by
  refine ⟨pairwise_sortByTs _, fun k => filter_sortByTs k _, ?_, ?_⟩
  · intro e
    rw [show get_user_journey st q = sortByTs (collect_journey st q) from rfl,
      mem_sortByTs]
    unfold collect_journey
    rw [List.mem_flatMap]
    constructor
    · rintro ⟨kv, hkv, hmem⟩
      rw [List.mem_filter] at hmem
      obtain ⟨hm, hq⟩ := hmem
      refine ⟨⟨kv, hkv, hm⟩, ?_⟩
      unfold matchesQuery at hq
      rw [List.any_eq_true] at hq
      obtain ⟨p, hp, hcond⟩ := hq
      rw [Bool.and_eq_true] at hcond
      exact ⟨p, hp, by simpa using hcond.1, hcond.2⟩
    · rintro ⟨⟨kv, hkv, hm⟩, ⟨p, hp, hne, hcs⟩⟩
      refine ⟨kv, hkv, ?_⟩
      rw [List.mem_filter]
      refine ⟨hm, ?_⟩
      unfold matchesQuery
      rw [List.any_eq_true]
      refine ⟨p, hp, ?_⟩
      rw [Bool.and_eq_true]
      exact ⟨by simpa using hne, hcs⟩
  · refine List.Pairwise.imp ?_ (pairwise_sortByTs (collect_journey st q))
    intro a b hab hb
    exact strLe_nil_right _ (hb ▸ hab)

end LogProc
